import Mathlib

/-!
Verification of the change-detection and cache-prepopulation pipeline of
`infbox` (`scripts/watchers/watch_codebase_enhanced.py`, plus the legacy
watcher `scripts/watch_codebase.py` where noted).

The Python classes `CacheManager` and `CodebaseWatcher` are embedded as pure
state-transition functions.  Python dicts keyed by path strings are embedded
as association lists, the pending `deque` as a `List` (head = oldest entry),
and every outbound HTTP interaction is abstracted by a response oracle
`Payload → Option Nat` (`none` = transport error / exception, `some c` =
HTTP status code `c`).  Each operation returns, besides the new state, the
list of priming requests (payloads) it sent, so that "zero additional
outbound priming requests" is a statement about the returned list.
-/

namespace Infbox

/-! ### Python `dict` operations, as association lists -/

/-- Lookup in a `path -> hash` dict. -/
def dictLookup : List (String × Nat) → String → Option Nat
  | [], _ => none
  | (k, v) :: rest, key => if k = key then some v else dictLookup rest key

/-- `d[key] = v`: update in place if present, else add. -/
def dictInsert : List (String × Nat) → String → Nat → List (String × Nat)
  | [], key, v => [(key, v)]
  | (k, w) :: rest, key, v =>
    if k = key then (k, v) :: rest else (k, w) :: dictInsert rest key v

/-- `del d[key]`.  A Python dict holds each key at most once; on such
duplicate-free association lists this removal coincides with `del`. -/
def dictErase : List (String × Nat) → String → List (String × Nat)
  | [], _ => []
  | (k, w) :: rest, key =>
    if k = key then dictErase rest key else (k, w) :: dictErase rest key

theorem dictLookup_insert_self (d : List (String × Nat)) (k : String) (v : Nat) :
    dictLookup (dictInsert d k v) k = some v := by
  induction d with
  | nil => simp [dictInsert, dictLookup]
  | cons kv rest ih =>
    obtain ⟨k', v'⟩ := kv
    by_cases h : k' = k <;> simp [dictInsert, dictLookup, h, ih]

theorem dictLookup_insert_other (d : List (String × Nat)) (k k' : String) (v : Nat)
    (h : k' ≠ k) : dictLookup (dictInsert d k v) k' = dictLookup d k' := by
  have h2 : ¬(k = k') := Ne.symm h
  induction d with
  | nil => simp [dictInsert, dictLookup, h2]
  | cons kv rest ih =>
    obtain ⟨k₀, v₀⟩ := kv
    by_cases h₀ : k₀ = k
    · subst h₀
      simp [dictInsert, dictLookup, h2]
    · by_cases h₁ : k₀ = k' <;> simp [dictInsert, dictLookup, h₀, h₁, h, ih]

theorem dictLookup_erase_self (d : List (String × Nat)) (k : String) :
    dictLookup (dictErase d k) k = none := by
  induction d with
  | nil => simp [dictErase, dictLookup]
  | cons kv rest ih =>
    obtain ⟨k₀, v₀⟩ := kv
    by_cases h₀ : k₀ = k <;> simp [dictErase, dictLookup, h₀, ih]

theorem dictLookup_erase_other (d : List (String × Nat)) (k k' : String)
    (h : k' ≠ k) : dictLookup (dictErase d k) k' = dictLookup d k' := by
  have h2 : ¬(k = k') := Ne.symm h
  induction d with
  | nil => simp [dictErase, dictLookup]
  | cons kv rest ih =>
    obtain ⟨k₀, v₀⟩ := kv
    by_cases h₀ : k₀ = k
    · subst h₀
      simp [dictErase, dictLookup, h2, ih]
    · by_cases h₁ : k₀ = k' <;> simp [dictErase, dictLookup, h₀, h₁, h, ih]

/-! ### Reading file content: `open(filepath, 'r', encoding='utf-8', errors='ignore')`

`_get_file_info` reads the file as text with the lossy UTF-8 decoder: valid
UTF-8 sequences decode to their scalar values and undecodable bytes are
dropped (CPython skips the maximal subpart of an invalid sequence).  The
decoded string is then re-encoded (`content.encode('utf-8')`) before hashing.
-/

/-- Lower bound of the second byte of a multi-byte sequence given its lead
byte (0xE0 ⇒ 0xA0, 0xF0 ⇒ 0x90, otherwise 0x80): excludes overlong forms. -/
def utf8Cont2Lo (lead : Nat) : Nat :=
  if lead = 0xE0 then 0xA0 else if lead = 0xF0 then 0x90 else 0x80

/-- Upper bound of the second byte of a multi-byte sequence given its lead
byte (0xED ⇒ 0x9F, 0xF4 ⇒ 0x8F, otherwise 0xBF): excludes surrogates and
scalars above 0x10FFFF. -/
def utf8Cont2Hi (lead : Nat) : Nat :=
  if lead = 0xED then 0x9F else if lead = 0xF4 then 0x8F else 0xBF

/-- CPython's incremental UTF-8 decoder with `errors='ignore'`: decode valid
sequences, silently drop the maximal subpart of each invalid sequence.  The
fuel argument only bounds recursion; every step consumes at least one byte,
so fuel equal to the byte count (as supplied by `utf8DecodeIgnore`) never
runs out. -/
def utf8DecodeIgnoreGo : Nat → List Nat → List Char
  | 0, _ => []
  | _, [] => []
  | fuel + 1, b1 :: rest =>
    if b1 < 0x80 then Char.ofNat b1 :: utf8DecodeIgnoreGo fuel rest
    else if b1 < 0xC2 then utf8DecodeIgnoreGo fuel rest
    else if b1 ≤ 0xDF then
      match rest with
      | [] => []
      | b2 :: rest2 =>
        if 0x80 ≤ b2 ∧ b2 ≤ 0xBF then
          Char.ofNat ((b1 - 0xC0) * 64 + (b2 - 0x80)) :: utf8DecodeIgnoreGo fuel rest2
        else utf8DecodeIgnoreGo fuel rest
    else if b1 ≤ 0xEF then
      match rest with
      | [] => []
      | b2 :: rest2 =>
        if utf8Cont2Lo b1 ≤ b2 ∧ b2 ≤ utf8Cont2Hi b1 then
          match rest2 with
          | [] => []
          | b3 :: rest3 =>
            if 0x80 ≤ b3 ∧ b3 ≤ 0xBF then
              Char.ofNat ((b1 - 0xE0) * 4096 + (b2 - 0x80) * 64 + (b3 - 0x80)) ::
                utf8DecodeIgnoreGo fuel rest3
            else utf8DecodeIgnoreGo fuel rest2
        else utf8DecodeIgnoreGo fuel rest
    else if b1 ≤ 0xF4 then
      match rest with
      | [] => []
      | b2 :: rest2 =>
        if utf8Cont2Lo b1 ≤ b2 ∧ b2 ≤ utf8Cont2Hi b1 then
          match rest2 with
          | [] => []
          | b3 :: rest3 =>
            if 0x80 ≤ b3 ∧ b3 ≤ 0xBF then
              match rest3 with
              | [] => []
              | b4 :: rest4 =>
                if 0x80 ≤ b4 ∧ b4 ≤ 0xBF then
                  Char.ofNat ((b1 - 0xF0) * 262144 + (b2 - 0x80) * 4096 +
                      (b3 - 0x80) * 64 + (b4 - 0x80)) :: utf8DecodeIgnoreGo fuel rest4
                else utf8DecodeIgnoreGo fuel rest3
            else utf8DecodeIgnoreGo fuel rest2
        else utf8DecodeIgnoreGo fuel rest
    else utf8DecodeIgnoreGo fuel rest

/-- The lossy text read of a file's raw bytes. -/
def utf8DecodeIgnore (bytes : List Nat) : List Char :=
  utf8DecodeIgnoreGo bytes.length bytes

/-- `str.encode('utf-8')` for one character. -/
def utf8EncodeChar (c : Char) : List Nat :=
  let n := c.toNat
  if n < 0x80 then [n]
  else if n < 0x800 then [0xC0 + n / 64, 0x80 + n % 64]
  else if n < 0x10000 then [0xE0 + n / 4096, 0x80 + n / 64 % 64, 0x80 + n % 64]
  else [0xF0 + n / 262144, 0x80 + n / 4096 % 64, 0x80 + n / 64 % 64, 0x80 + n % 64]

/-- `content.encode('utf-8')`. -/
def utf8Encode (s : String) : List Nat := (s.data.map utf8EncodeChar).flatten

/-! ### `xxhash.xxh64` (seed 0), the content fingerprint

The source computes `xxhash.xxh64(); update(content.encode('utf-8'));
hexdigest()`.  The hexdigest is the 16-hex-digit rendering of the 64-bit
digest, so two hexdigests are equal iff the 64-bit values are; we keep the
fingerprint as that `Nat` below `2^64`. -/

def mask64 (n : Nat) : Nat := n % 18446744073709551616

def rotl64 (n r : Nat) : Nat := mask64 (n * 2 ^ r) + n / 2 ^ (64 - r)

def xxhPrime1 : Nat := 11400714785074694791
def xxhPrime2 : Nat := 14029467366897019727
def xxhPrime3 : Nat := 1609587929392839161
def xxhPrime4 : Nat := 9650029242287828579
def xxhPrime5 : Nat := 2870177450012600261

/-- Little-endian value of a byte list. -/
def readLE : List Nat → Nat
  | [] => 0
  | b :: rest => b + 256 * readLE rest

def xxh64Round (acc input : Nat) : Nat :=
  mask64 (rotl64 (mask64 (acc + input * xxhPrime2)) 31 * xxhPrime1)

def xxh64MergeRound (acc v : Nat) : Nat :=
  mask64 ((acc ^^^ xxh64Round 0 v) * xxhPrime1 + xxhPrime4)

def xxh64Avalanche (h0 : Nat) : Nat :=
  let h1 := mask64 ((h0 ^^^ (h0 / 2 ^ 33)) * xxhPrime2)
  let h2 := mask64 ((h1 ^^^ (h1 / 2 ^ 29)) * xxhPrime3)
  h2 ^^^ (h2 / 2 ^ 32)

/-- The finalization loop over the trailing bytes (8-byte steps, one 4-byte
step, then single bytes) followed by the avalanche.  The fuel argument only
bounds recursion: every step consumes at least one byte, so fuel equal to
the byte count (as supplied by `xxh64Tail`) never runs out. -/
def xxh64TailGo : Nat → Nat → List Nat → Nat
  | _, h, [] => xxh64Avalanche h
  | 0, h, _ :: _ => xxh64Avalanche h
  | fuel + 1, h, b :: rest =>
    let bytes := b :: rest
    if 8 ≤ bytes.length then
      xxh64TailGo fuel
        (mask64 (rotl64 (h ^^^ xxh64Round 0 (readLE (bytes.take 8))) 27 *
          xxhPrime1 + xxhPrime4))
        (bytes.drop 8)
    else if 4 ≤ bytes.length then
      xxh64TailGo fuel
        (mask64 (rotl64 (h ^^^ mask64 (readLE (bytes.take 4) * xxhPrime1)) 23 *
          xxhPrime2 + xxhPrime3))
        (bytes.drop 4)
    else
      xxh64TailGo fuel
        (mask64 (rotl64 (h ^^^ mask64 (b * xxhPrime5)) 11 * xxhPrime1)) rest

def xxh64Tail (h : Nat) (bytes : List Nat) : Nat :=
  xxh64TailGo bytes.length h bytes

/-- The main accumulator loop over 32-byte stripes.  Fuel as in
`xxh64TailGo`. -/
def xxh64RoundsGo : Nat → Nat → Nat → Nat → Nat → List Nat →
    Nat × Nat × Nat × Nat × List Nat
  | 0, v1, v2, v3, v4, bytes => (v1, v2, v3, v4, bytes)
  | fuel + 1, v1, v2, v3, v4, bytes =>
    if 32 ≤ bytes.length then
      xxh64RoundsGo fuel
        (xxh64Round v1 (readLE (bytes.take 8)))
        (xxh64Round v2 (readLE ((bytes.drop 8).take 8)))
        (xxh64Round v3 (readLE ((bytes.drop 16).take 8)))
        (xxh64Round v4 (readLE ((bytes.drop 24).take 8)))
        (bytes.drop 32)
    else (v1, v2, v3, v4, bytes)

def xxh64Rounds (v1 v2 v3 v4 : Nat) (bytes : List Nat) :
    Nat × Nat × Nat × Nat × List Nat :=
  xxh64RoundsGo bytes.length v1 v2 v3 v4 bytes

/-- XXH64 with seed 0 over a byte sequence. -/
def xxh64 (bytes : List Nat) : Nat :=
  let len := bytes.length
  if 32 ≤ len then
    match xxh64Rounds (mask64 (xxhPrime1 + xxhPrime2)) xxhPrime2 0
        (mask64 (2 ^ 64 - xxhPrime1)) bytes with
    | (v1, v2, v3, v4, restBytes) =>
      let h0 := mask64 (rotl64 v1 1 + rotl64 v2 7 + rotl64 v3 12 + rotl64 v4 18)
      let h1 := xxh64MergeRound h0 v1
      let h2 := xxh64MergeRound h1 v2
      let h3 := xxh64MergeRound h2 v3
      let h4 := xxh64MergeRound h3 v4
      xxh64Tail (mask64 (h4 + len)) restBytes
  else
    xxh64Tail (mask64 (xxhPrime5 + len)) bytes

/-! ### Data model -/

/-- The `file_info` dict built by `CodebaseWatcher._get_file_info`.  `hash`
holds the 64-bit value whose hexdigest the source stores. -/
structure FileInfo where
  path : String
  content : String
  hash : Nat
  language : String
deriving DecidableEq, Repr

/-- The JSON body of a priming request: the POST to `/v1/chat/completions`
built in `cache_file` (system message, fixed user turn, `max_tokens: 10`,
`temperature: 0`). -/
structure Payload where
  model : String
  systemContent : String
  userContent : String
  maxTokens : Nat
  temperature : Nat
deriving DecidableEq, Repr

/-- Response oracle abstracting the inference server: `none` models a
transport error (an exception raised by `requests.post`), `some c` an HTTP
response with status code `c`. -/
def Oracle := Payload → Option Nat

/-- Mutable state of `CacheManager`: the deque `cache_queue` (head = oldest),
the dict `cached_files` (path → hash last successfully primed), and the
model metadata obtained at startup. -/
structure CMState where
  cache_queue : List FileInfo
  cached_files : List (String × Nat)
  model_id : Option String
  max_model_len : Nat
deriving DecidableEq, Repr

/-- Configuration defaults of the environment block
(`CACHE_BATCH_SIZE`, `CACHE_MAX_FILE_SIZE`).  The batch size is passed to
the queue operations below as an explicit parameter `B` so that statements
hold for every configured value; this constant is the default used by
concrete witnesses. -/
def CACHE_BATCH_SIZE : Nat := 5

def CACHE_MAX_FILE_SIZE : Nat := 100000

/-! ### `CacheManager` operations -/

/-- `CacheManager._estimate_tokens`: `len(text) // 4`.  Python `len` on a
`str` counts code points, which is `String.length`. -/
def estimate_tokens (text : String) : Nat := text.length / 4

/-- The `total_tokens` computed in `cache_file`: the length estimate of the
wrapping system prompt plus the fenced file content, plus the 100-token
reserve for messages. -/
def primingTokens (fi : FileInfo) : Nat :=
  let system_prompt := "You are analyzing the file: " ++ fi.path ++ "\n\n"
  let file_content := "```" ++ fi.language ++ "\n" ++ fi.content ++ "\n```"
  estimate_tokens (system_prompt ++ file_content) + 100

/-- The POST body `cache_file` builds for a record, given the model id. -/
def primingPayload (model : String) (fi : FileInfo) : Payload :=
  let system_prompt := "You are analyzing the file: " ++ fi.path ++ "\n\n"
  let file_content := "```" ++ fi.language ++ "\n" ++ fi.content ++ "\n```"
  { model := model
    systemContent := system_prompt ++ file_content
    userContent := "Analyze this file and be ready to answer questions about it."
    maxTokens := 10
    temperature := 0 }

/-- `CacheManager.cache_file`: prime one file.  Returns the new state and
the (empty or singleton) list of outbound priming requests.  `not
self.model_id` in Python is true for `None` and for the empty string; `not
file_info` never triggers here because every caller guards with
`if file_info:`.  The budget comparison is carried out over `Int` because
Python subtraction does not truncate at zero.  The `try` around
`requests.post` corresponds to the `none` oracle answer (exception: state
unchanged), the status check to the comparison with 200. -/
def cache_file (resp : Oracle) (st : CMState) (fi : FileInfo) :
    CMState × List Payload :=
  match st.model_id with
  | none => (st, [])
  | some model =>
    if model = "" then (st, [])
    else if dictLookup st.cached_files fi.path = some fi.hash then (st, [])
    else
      let total_tokens := primingTokens fi
      if (total_tokens : Int) > (st.max_model_len : Int) - 200 then (st, [])
      else
        let payload := primingPayload model fi
        match resp payload with
        | none => (st, [payload])
        | some code =>
          if code = 200 then
            ({ st with cached_files := dictInsert st.cached_files fi.path fi.hash },
             [payload])
          else (st, [payload])

/-- The `while self.cache_queue and processed < CACHE_BATCH_SIZE` loop of
`process_queue`; `remaining` counts down from `B` as `processed` counts
up.  Each iteration pops the head of the deque and calls `cache_file` on
it. -/
def process_queue_go (resp : Oracle) : Nat → CMState → CMState × List Payload
  | 0, st => (st, [])
  | remaining + 1, st =>
    match st.cache_queue with
    | [] => (st, [])
    | fi :: qrest =>
      let r1 := cache_file resp { st with cache_queue := qrest } fi
      let r2 := process_queue_go resp remaining r1.1
      (r2.1, r1.2 ++ r2.2)

/-- `CacheManager.process_queue` with the configured batch size `B`. -/
def process_queue (resp : Oracle) (B : Nat) (st : CMState) :
    CMState × List Payload :=
  if st.cache_queue = [] then (st, [])
  else process_queue_go resp B st

/-- `CacheManager.add_to_queue` with the configured batch size `B`:
dedup short-circuit, append, then flush when the queue has reached `B`. -/
def add_to_queue (resp : Oracle) (B : Nat) (st : CMState) (fi : FileInfo) :
    CMState × List Payload :=
  if dictLookup st.cached_files fi.path = some fi.hash then (st, [])
  else
    let st1 := { st with cache_queue := st.cache_queue ++ [fi] }
    if B ≤ st1.cache_queue.length then process_queue resp B st1
    else (st1, [])

/-! ### `CodebaseWatcher` (enhanced watcher) -/

/-- State of the enhanced watcher: its `file_hashes` dict (the FileIndex)
plus the cache manager it owns. -/
structure WatcherState where
  file_hashes : List (String × Nat)
  cm : CMState
deriving DecidableEq, Repr

/-- `CodebaseWatcher._get_file_info`.  The embedding receives the relative
path (`filepath.relative_to(self.watch_dir)` rendered as a string), the
eligibility verdict (`filepath.is_file() and not self._should_ignore(...)`;
the filter combines static deny substrings, binary extensions, extra ignore
dirs and the gitignore oracle — no claim depends on its internals), the
language tag from the extension table, and the raw bytes of the file
(`none` when reading raises).  The size guard uses `stat().st_size`, the
raw byte count; the content is the lossy UTF-8 decode of the bytes and the
hash is `xxh64` of the decoded content re-encoded as UTF-8. -/
def get_file_info (relPath : String) (eligible : Bool) (language : String)
    (raw : Option (List Nat)) : Option FileInfo :=
  match raw with
  | none => none
  | some bytes =>
    if !eligible then none
    else if CACHE_MAX_FILE_SIZE < bytes.length then none
    else
      let content : String := ⟨utf8DecodeIgnore bytes⟩
      some { path := relPath
             content := content
             hash := xxh64 (utf8Encode content)
             language := language }

/-- `CodebaseWatcher.on_created`: index the new file and enqueue it. -/
def on_created (resp : Oracle) (B : Nat) (st : WatcherState) (relPath : String)
    (eligible : Bool) (language : String) (raw : Option (List Nat)) :
    WatcherState × List Payload :=
  match get_file_info relPath eligible language raw with
  | none => (st, [])
  | some fi =>
    let fh := dictInsert st.file_hashes fi.path fi.hash
    let r := add_to_queue resp B st.cm fi
    ({ file_hashes := fh, cm := r.1 }, r.2)

/-- `CodebaseWatcher.on_modified`: re-read the file; if the recomputed hash
differs from the stored one (or the path is new), update `file_hashes` and
enqueue, else do nothing. -/
def on_modified (resp : Oracle) (B : Nat) (st : WatcherState) (relPath : String)
    (eligible : Bool) (language : String) (raw : Option (List Nat)) :
    WatcherState × List Payload :=
  match get_file_info relPath eligible language raw with
  | none => (st, [])
  | some fi =>
    if dictLookup st.file_hashes fi.path ≠ some fi.hash then
      let fh := dictInsert st.file_hashes fi.path fi.hash
      let r := add_to_queue resp B st.cm fi
      ({ file_hashes := fh, cm := r.1 }, r.2)
    else (st, [])

/-- `CodebaseWatcher.on_deleted`: when the path is tracked, drop it from
`file_hashes` and from the cache manager's `cached_files`. -/
def on_deleted (st : WatcherState) (relPath : String) : WatcherState :=
  if (dictLookup st.file_hashes relPath).isSome then
    { file_hashes := dictErase st.file_hashes relPath
      cm :=
        if (dictLookup st.cm.cached_files relPath).isSome then
          { st.cm with cached_files := dictErase st.cm.cached_files relPath }
        else st.cm }
  else st

/-- `CodebaseWatcher` overrides `on_created`, `on_modified` and `on_deleted`
only.  A move event is dispatched to the inherited
`watchdog.events.FileSystemEventHandler.on_moved`, whose body is `pass`:
the state is untouched and no request goes out. -/
def on_moved (st : WatcherState) (_srcPath _destPath : String) :
    WatcherState × List Payload :=
  (st, [])

/-! ### Legacy watcher (`scripts/watch_codebase.py`) -/

/-- State of the legacy watcher: it tracks only `file_hashes` and notifies
LMCache through `_update_cache`; it has no cached-fingerprint map. -/
structure LegacyState where
  file_hashes : List (String × Nat)
deriving DecidableEq, Repr

/-- `CodebaseWatcher.on_moved` of the legacy watcher: drop the old relative
path from `file_hashes`; re-hash the destination (`destHash = none` when
`_hash_file` returns `None`) and, on success, record it and send
`_update_cache([src, dst], "move")` — returned as the list of
(paths, action) notifications. -/
def legacy_on_moved (st : LegacyState) (srcPath destPath : String)
    (destHash : Option Nat) : LegacyState × List (List String × String) :=
  let fh1 :=
    if (dictLookup st.file_hashes srcPath).isSome then
      dictErase st.file_hashes srcPath
    else st.file_hashes
  match destHash with
  | none => ({ file_hashes := fh1 }, [])
  | some h =>
    ({ file_hashes := dictInsert fh1 destPath h }, [([srcPath, destPath], "move")])

/-! ### Reference functions used to state FIFO and batching properties -/

/-- Reference drain: `cache_file` on each record in order, threading the
state and concatenating the outbound requests. -/
def primeAll (resp : Oracle) (st : CMState) :
    List FileInfo → CMState × List Payload
  | [] => (st, [])
  | fi :: rest =>
    let r1 := cache_file resp st fi
    let r2 := primeAll resp r1.1 rest
    (r2.1, r1.2 ++ r2.2)

/-- `add_to_queue` on each record in order, threading the state and
concatenating the outbound requests. -/
def enqueueAll (resp : Oracle) (B : Nat) (st : CMState) :
    List FileInfo → CMState × List Payload
  | [] => (st, [])
  | fi :: rest =>
    let r1 := add_to_queue resp B st fi
    let r2 := enqueueAll resp B r1.1 rest
    (r2.1, r1.2 ++ r2.2)

/-! ### Structural lemmas -/

/-- `cache_file` neither reads nor writes the pending queue. -/
theorem cache_file_set_queue (resp : Oracle) (st : CMState) (fi : FileInfo)
    (q : List FileInfo) :
    cache_file resp { st with cache_queue := q } fi =
      ({ (cache_file resp st fi).1 with cache_queue := q },
       (cache_file resp st fi).2) := by
  obtain ⟨q0, cf, mid, mml⟩ := st
  cases mid with
  | none => rfl
  | some m =>
    simp only [cache_file]
    split
    · rfl
    · split
      · rfl
      · split
        · rfl
        · split
          · rfl
          · split <;> rfl

/-- The queue after `cache_file` is the queue before. -/
theorem cache_file_queue_eq (resp : Oracle) (st : CMState) (fi : FileInfo) :
    ((cache_file resp st fi).1).cache_queue = st.cache_queue := by
  have h := cache_file_set_queue resp st fi st.cache_queue
  have hst : { st with cache_queue := st.cache_queue } = st := by
    obtain ⟨q0, cf, mid, mml⟩ := st
    rfl
  rw [hst] at h
  rw [h]

/-- The flush loop drains exactly `min n |queue|` entries in FIFO order:
it equals the reference drain of `take n` with `drop n` left queued. -/
theorem process_queue_go_eq (resp : Oracle) (n : Nat) (st : CMState) :
    process_queue_go resp n st =
      primeAll resp { st with cache_queue := st.cache_queue.drop n }
        (st.cache_queue.take n) := by
  induction n generalizing st with
  | zero =>
    obtain ⟨q0, cf, mid, mml⟩ := st
    simp [process_queue_go, primeAll]
  | succ m ih =>
    obtain ⟨q0, cf, mid, mml⟩ := st
    cases q0 with
    | nil => simp [process_queue_go, primeAll]
    | cons fi qrest =>
      have hswap := cache_file_set_queue resp
        { cache_queue := qrest, cached_files := cf, model_id := mid,
          max_model_len := mml } fi (qrest.drop m)
      simp only at hswap
      simp only [process_queue_go, List.take_succ_cons, List.drop_succ_cons, primeAll]
      rw [ih]
      simp only [cache_file_queue_eq]
      rw [hswap]

/-- `process_queue` drains `take B` in FIFO order, leaves `drop B`, and is a
no-op on the empty queue. -/
theorem process_queue_eq_primeAll (resp : Oracle) (B : Nat) (st : CMState) :
    process_queue resp B st =
      primeAll resp { st with cache_queue := st.cache_queue.drop B }
        (st.cache_queue.take B) := by
  unfold process_queue
  split
  · rename_i hq
    obtain ⟨q0, cf, mid, mml⟩ := st
    simp only at hq
    subst hq
    simp [primeAll]
  · exact process_queue_go_eq resp B st

/-- Case analysis of `cache_file`: either nothing is sent and the state is
untouched, or exactly one request goes out, and the fingerprint map gains
the record's entry exactly when the response is HTTP 200. -/
theorem cache_file_spec (resp : Oracle) (st : CMState) (fi : FileInfo) :
    cache_file resp st fi = (st, []) ∨
    (∃ pl, cache_file resp st fi = (st, [pl]) ∧ resp pl ≠ some 200) ∨
    (∃ pl, cache_file resp st fi =
        ({ st with cached_files := dictInsert st.cached_files fi.path fi.hash },
         [pl]) ∧ resp pl = some 200) := by
  rcases hmid : st.model_id with _ | model
  · left
    simp [cache_file, hmid]
  · by_cases hm : model = ""
    · left
      simp [cache_file, hmid, hm]
    · by_cases hdup : dictLookup st.cached_files fi.path = some fi.hash
      · left
        simp [cache_file, hmid, hm, hdup]
      · by_cases hbud : ((primingTokens fi : Int) > (st.max_model_len : Int) - 200)
        · left
          simp [cache_file, hmid, hm, hdup, hbud]
        · rcases hresp : resp (primingPayload model fi) with _ | code
          · refine Or.inr (Or.inl ⟨primingPayload model fi, ?_, ?_⟩)
            · simp [cache_file, hmid, hm, hdup, hbud, hresp]
            · simp [hresp]
          · by_cases hcode : code = 200
            · subst hcode
              refine Or.inr (Or.inr ⟨primingPayload model fi, ?_, hresp⟩)
              simp [cache_file, hmid, hm, hdup, hbud, hresp]
            · refine Or.inr (Or.inl ⟨primingPayload model fi, ?_, ?_⟩)
              · simp [cache_file, hmid, hm, hdup, hbud, hresp, hcode]
              · simp [hresp, hcode]

/-- The reference drain never touches the pending queue. -/
theorem primeAll_queue_eq (resp : Oracle) (st : CMState) (l : List FileInfo) :
    ((primeAll resp st l).1).cache_queue = st.cache_queue := by
  induction l generalizing st with
  | nil => rfl
  | cons fi rest ih =>
    simp only [primeAll]
    rw [ih, cache_file_queue_eq]

/-- Enqueuing a concatenation enqueues the two parts in sequence. -/
theorem enqueueAll_append (resp : Oracle) (B : Nat) (st : CMState)
    (l1 l2 : List FileInfo) :
    enqueueAll resp B st (l1 ++ l2) =
      ((enqueueAll resp B (enqueueAll resp B st l1).1 l2).1,
       (enqueueAll resp B st l1).2 ++
         (enqueueAll resp B (enqueueAll resp B st l1).1 l2).2) := by
  induction l1 generalizing st with
  | nil => simp [enqueueAll]
  | cons fi rest ih =>
    simp only [List.cons_append, enqueueAll, List.append_eq]
    rw [ih]
    simp [List.append_assoc]

/-- While the queue stays strictly below the batch size, enqueuing
non-duplicate records only appends them in order: nothing is flushed, no
request goes out, and the rest of the state is untouched. -/
theorem enqueueAll_noflush (resp : Oracle) (B : Nat) (st : CMState)
    (records : List FileInfo)
    (hlen : st.cache_queue.length + records.length < B)
    (hnodup : ∀ fi ∈ records,
      dictLookup st.cached_files fi.path ≠ some fi.hash) :
    enqueueAll resp B st records =
      ({ st with cache_queue := st.cache_queue ++ records }, []) := by
  induction records generalizing st with
  | nil =>
    obtain ⟨q0, cf, mid, mml⟩ := st
    simp [enqueueAll]
  | cons fi rest ih =>
    have hdup := hnodup fi (by simp)
    have hnotrig : ¬ (B ≤ (st.cache_queue ++ [fi]).length) := by
      simp only [List.length_append, List.length_cons, List.length_nil]
      simp only [List.length_cons] at hlen
      omega
    simp only [enqueueAll, add_to_queue, if_neg hdup, if_neg hnotrig]
    rw [ih]
    · simp [List.append_assoc]
    · simp only [List.length_append, List.length_cons, List.length_nil]
      simp only [List.length_cons] at hlen
      omega
    · intro g hg
      exact hnodup g (by simp [hg])

/-! ### Concrete states, records and oracles for the witnesses -/

/-- Server that answers every priming request with HTTP 200. -/
def okOracle : Oracle := fun _ => some 200

/-- Server that answers every priming request with HTTP 500. -/
def failOracle : Oracle := fun _ => some 500

/-- Server whose every request raises a transport error. -/
def noneOracle : Oracle := fun _ => none

/-- A fresh cache manager: empty queue and map, model known, default
context length. -/
def stW : CMState :=
  { cache_queue := [], cached_files := [], model_id := some "m"
    max_model_len := 8192 }

def fiW1 : FileInfo :=
  { path := "a.py", content := "x", hash := 1, language := "python" }

def fiW2 : FileInfo :=
  { path := "b.py", content := "y", hash := 2, language := "python" }

/-! ### Claim theorems -/

/-- C3.  Flush semantics: for every queue state, `process_queue` removes and
primes at most the configured batch size `B` of entries, calling
`cache_file` on each in FIFO order of insertion (the reference drain of
`take B`); entries beyond the batch size remain queued in their original
order (`drop B`); flushing an empty queue changes nothing and raises no
error. -/
theorem C3_flush_semantics (resp : Oracle) (B : Nat) (st : CMState) :
    process_queue resp B st =
      primeAll resp { st with cache_queue := st.cache_queue.drop B }
        (st.cache_queue.take B) ∧
    ((process_queue resp B st).1).cache_queue = st.cache_queue.drop B ∧
    (st.cache_queue = [] → process_queue resp B st = (st, [])) := by
  refine ⟨process_queue_eq_primeAll resp B st, ?_, ?_⟩
  · rw [process_queue_eq_primeAll, primeAll_queue_eq]
  · intro hq
    simp [process_queue, hq]

/-- C1.  Idempotent dedup: after a priming request for a record succeeds
with HTTP 200 (so the fingerprint map holds the record's hash), calling
`add_to_queue` again with the same path and unchanged fingerprint appends
nothing to the pending queue and produces zero outbound requests; the
short-circuit is pure — the result does not consult the oracle at all, as
the arbitrary `resp2` shows. -/
theorem C1_idempotent_dedup (resp resp2 : Oracle) (B : Nat) (st : CMState)
    (fi : FileInfo) (pl : Payload)
    (hsent : (cache_file resp st fi).2 = [pl])
    (hok : resp pl = some 200) :
    add_to_queue resp2 B (cache_file resp st fi).1 fi =
      ((cache_file resp st fi).1, []) := by
  rcases cache_file_spec resp st fi with h | ⟨pl2, h, hne⟩ | ⟨pl2, h, h200⟩
  · rw [h] at hsent
    simp at hsent
  · rw [h] at hsent
    simp at hsent
    subst hsent
    exact absurd hok hne
  · have hrec : dictLookup ((cache_file resp st fi).1).cached_files fi.path
        = some fi.hash := by
      rw [h]
      exact dictLookup_insert_self _ _ _
    unfold add_to_queue
    rw [if_pos hrec]

/-- Witness for C1: a fresh manager primes `a.py` successfully; re-enqueuing
the same record afterwards changes nothing and emits nothing, under an
oracle that could not even answer. -/
theorem C1_idempotent_dedup_witness :
    (cache_file okOracle stW fiW1).2 = [primingPayload "m" fiW1] ∧
    okOracle (primingPayload "m" fiW1) = some 200 ∧
    add_to_queue noneOracle CACHE_BATCH_SIZE (cache_file okOracle stW fiW1).1 fiW1 =
      ((cache_file okOracle stW fiW1).1, []) :=
  ⟨rfl, rfl,
    C1_idempotent_dedup okOracle noneOracle CACHE_BATCH_SIZE stW fiW1
      (primingPayload "m" fiW1) rfl rfl⟩

/-- C2.  Batch trigger: starting from an empty queue, enqueuing exactly `B`
eligible, non-duplicate records produces exactly the one automatic flush of
the fully accumulated queue (so the queue is drained to empty), while
enqueuing `B - 1` such records triggers no flush: all of them are still
queued, in order, and no request has gone out. -/
theorem C2_batch_trigger (resp : Oracle) (B : Nat) (st : CMState)
    (records : List FileInfo)
    (hq : st.cache_queue = [])
    (hB : 1 ≤ B)
    (hnodup : ∀ fi ∈ records,
      dictLookup st.cached_files fi.path ≠ some fi.hash) :
    (records.length = B →
      enqueueAll resp B st records =
        process_queue resp B { st with cache_queue := records } ∧
      ((enqueueAll resp B st records).1).cache_queue = []) ∧
    (records.length = B - 1 →
      enqueueAll resp B st records = ({ st with cache_queue := records }, [])) := by
  obtain ⟨q0, cf, mid, mml⟩ := st
  have hq0 : q0 = [] := hq
  subst hq0
  constructor
  · intro hlenB
    rcases List.eq_nil_or_concat records with rfl | ⟨init, last, rfl⟩
    · simp only [List.length_nil] at hlenB
      omega
    · simp only [List.concat_eq_append] at hlenB hnodup ⊢
      have hinitlen : init.length = B - 1 := by
        simp only [List.length_append, List.length_cons, List.length_nil] at hlenB
        omega
      have hnfl := enqueueAll_noflush resp B
        { cache_queue := [], cached_files := cf, model_id := mid,
          max_model_len := mml } init
        (by simp only [List.length_nil, Nat.zero_add]; omega)
        (fun g hg => hnodup g (by simp [hg]))
      dsimp only at hnfl
      rw [List.nil_append] at hnfl
      have hlast := hnodup last (by simp)
      have hlen2 : B ≤ (init ++ [last]).length := by
        simp only [List.length_append, List.length_cons, List.length_nil]
        omega
      have hkey : enqueueAll resp B
          { cache_queue := [], cached_files := cf, model_id := mid,
            max_model_len := mml } (init ++ [last]) =
          process_queue resp B
            { cache_queue := init ++ [last], cached_files := cf,
              model_id := mid, max_model_len := mml } := by
        rw [enqueueAll_append, hnfl]
        simp only [enqueueAll, add_to_queue]
        rw [if_neg hlast]
        rw [if_pos hlen2]
        simp
      refine ⟨hkey, ?_⟩
      rw [hkey, process_queue_eq_primeAll, primeAll_queue_eq]
      dsimp only
      exact List.drop_eq_nil_of_le (le_of_eq hlenB)
  · intro hlenB1
    have hnfl := enqueueAll_noflush resp B
      { cache_queue := [], cached_files := cf, model_id := mid,
        max_model_len := mml } records
      (by simp only [List.length_nil, Nat.zero_add]; omega)
      hnodup
    dsimp only at hnfl ⊢
    rw [List.nil_append] at hnfl
    exact hnfl

/-- Witness for C2: with batch size 2, enqueuing `a.py` and `b.py` flushes
once and drains both; enqueuing only `a.py` leaves it queued with no
request sent. -/
theorem C2_batch_trigger_witness :
    (stW.cache_queue = [] ∧ 1 ≤ 2 ∧
      ∀ fi ∈ [fiW1, fiW2], dictLookup stW.cached_files fi.path ≠ some fi.hash) ∧
    enqueueAll okOracle 2 stW [fiW1, fiW2] =
      process_queue okOracle 2 { stW with cache_queue := [fiW1, fiW2] } ∧
    ((enqueueAll okOracle 2 stW [fiW1, fiW2]).1).cache_queue = [] ∧
    enqueueAll okOracle 2 stW [fiW1] = ({ stW with cache_queue := [fiW1] }, []) := by
  have h := C2_batch_trigger okOracle 2 stW [fiW1, fiW2] rfl (by decide) (by decide)
  have h1 := C2_batch_trigger okOracle 2 stW [fiW1] rfl (by decide) (by decide)
  exact ⟨⟨rfl, by decide, by decide⟩, (h.1 rfl).1, (h.1 rfl).2, h1.2 rfl⟩

/-- C4.  Token-budget admission: when a record reaches the budget check (a
model id is known and the dedup did not fire), `cache_file` sends no
request and leaves the state — in particular the fingerprint map —
untouched whenever the estimated token count (wrapping prompt plus content
plus the 100-token reserve) exceeds the effective budget
`max_model_len - 200`; a record whose estimate is at or below the budget is
sent.  An over-budget file is therefore never recorded as cached. -/
theorem C4_token_budget (resp : Oracle) (st : CMState) (fi : FileInfo)
    (model : String) (hmid : st.model_id = some model) (hm : model ≠ "")
    (hdup : dictLookup st.cached_files fi.path ≠ some fi.hash) :
    ((primingTokens fi : Int) > (st.max_model_len : Int) - 200 →
      cache_file resp st fi = (st, [])) ∧
    ((primingTokens fi : Int) ≤ (st.max_model_len : Int) - 200 →
      (cache_file resp st fi).2 = [primingPayload model fi]) := by
  constructor
  · intro hbud
    simp [cache_file, hmid, hm, hdup, hbud]
  · intro hbud
    have hbud2 : ¬ ((primingTokens fi : Int) > (st.max_model_len : Int) - 200) :=
      not_lt.mpr hbud
    rcases hresp : resp (primingPayload model fi) with _ | code
    · simp [cache_file, hmid, hm, hdup, hbud2, hresp]
    · by_cases hcode : code = 200 <;>
        simp [cache_file, hmid, hm, hdup, hbud2, hresp, hcode]

/-- A manager whose model allows 310 context tokens, so the effective
priming budget is 110 estimated tokens. -/
def stW4 : CMState :=
  { cache_queue := [], cached_files := [], model_id := some "m"
    max_model_len := 310 }

/-- A record whose estimate is exactly the 110-token budget. -/
def fiAtBudget : FileInfo :=
  { path := "a", content := "a", hash := 3, language := "" }

/-- A record whose estimate is one token over the 110-token budget. -/
def fiOverBudget : FileInfo :=
  { path := "a", content := "aaaaa", hash := 4, language := "" }

/-- Witness for C4: synthetic content straddling the boundary — an estimate
of exactly 110 tokens is sent, 111 tokens is rejected with no state
change. -/
theorem C4_token_budget_witness :
    primingTokens fiAtBudget = 110 ∧ primingTokens fiOverBudget = 111 ∧
    (cache_file okOracle stW4 fiAtBudget).2 = [primingPayload "m" fiAtBudget] ∧
    cache_file okOracle stW4 fiOverBudget = (stW4, []) :=
  ⟨rfl, rfl,
    (C4_token_budget okOracle stW4 fiAtBudget "m" rfl (by decide)
      (by decide)).2 (by decide),
    (C4_token_budget okOracle stW4 fiOverBudget "m" rfl (by decide)
      (by decide)).1 (by decide)⟩

/-- C5.  Failure atomicity of priming: if every request the call sends is
answered with a non-200 status or a transport error, `cache_file` leaves
the whole state — in particular the cached-fingerprint entry for the
path — exactly as it was; and for an arbitrary server, the fingerprint map
either stays unchanged or gains exactly the record's entry together with an
HTTP 200 answer to the one request actually sent. -/
theorem C5_failure_atomicity (resp : Oracle) (st : CMState) (fi : FileInfo)
    (hfail : ∀ pl ∈ (cache_file resp st fi).2, resp pl ≠ some 200) :
    (cache_file resp st fi).1 = st ∧
    ∀ resp2 : Oracle,
      ((cache_file resp2 st fi).1).cached_files = st.cached_files ∨
      (∃ pl, (cache_file resp2 st fi).2 = [pl] ∧ resp2 pl = some 200 ∧
        ((cache_file resp2 st fi).1).cached_files =
          dictInsert st.cached_files fi.path fi.hash) := by
  constructor
  · rcases cache_file_spec resp st fi with h | ⟨pl, h, hne⟩ | ⟨pl, h, h200⟩
    · rw [h]
    · rw [h]
    · exfalso
      refine hfail pl ?_ h200
      rw [h]
      simp
  · intro resp2
    rcases cache_file_spec resp2 st fi with h | ⟨pl, h, hne⟩ | ⟨pl, h, h200⟩
    · left
      rw [h]
    · left
      rw [h]
    · right
      exact ⟨pl, by rw [h], h200, by rw [h]⟩

/-- Witness for C5: under an all-500 server and under an all-raising server,
priming a fresh record leaves the manager state untouched. -/
theorem C5_failure_atomicity_witness :
    (∀ pl ∈ (cache_file failOracle stW fiW1).2, failOracle pl ≠ some 200) ∧
    (cache_file failOracle stW fiW1).1 = stW ∧
    (cache_file noneOracle stW fiW1).1 = stW :=
  ⟨by decide,
    (C5_failure_atomicity failOracle stW fiW1 (by decide)).1,
    (C5_failure_atomicity noneOracle stW fiW1 (by decide)).1⟩

/-- A successful `_get_file_info` records exactly the event's relative
path. -/
theorem get_file_info_path (p : String) (elig : Bool) (lang : String)
    (raw : Option (List Nat)) (fi : FileInfo)
    (h : get_file_info p elig lang raw = some fi) : fi.path = p := by
  rcases raw with _ | bytes
  · simp [get_file_info] at h
  · simp only [get_file_info] at h
    split at h
    · simp at h
    · split at h
      · simp at h
      · injection h with h2
        rw [← h2]

/-- C6.  Deletion clears state: a delete event for a tracked path removes it
from both `file_hashes` and the cached-fingerprint map; re-creating a file
at the same path with byte-identical content is then treated as uncached —
the dedup does not fire and the record is enqueued again for priming
(appended to the pending queue) rather than skipped. -/
theorem C6_deletion_clears (resp : Oracle) (B : Nat) (st : WatcherState)
    (p : String) (eligible : Bool) (language : String) (raw : Option (List Nat))
    (fi : FileInfo)
    (hfi : get_file_info p eligible language raw = some fi)
    (htrk : dictLookup st.file_hashes p = some fi.hash)
    (hcached : dictLookup st.cm.cached_files p = some fi.hash)
    (hroom : ¬ (B ≤ st.cm.cache_queue.length + 1)) :
    dictLookup (on_deleted st p).file_hashes p = none ∧
    dictLookup ((on_deleted st p).cm).cached_files p = none ∧
    on_created resp B (on_deleted st p) p eligible language raw =
      ({ file_hashes := dictInsert (on_deleted st p).file_hashes p fi.hash
         cm := { (on_deleted st p).cm with
                   cache_queue := (on_deleted st p).cm.cache_queue ++ [fi] } },
       []) := by
  have hpath : fi.path = p := get_file_info_path p eligible language raw fi hfi
  have hdel : on_deleted st p =
      { file_hashes := dictErase st.file_hashes p
        cm := { st.cm with cached_files := dictErase st.cm.cached_files p } } := by
    simp [on_deleted, htrk, hcached]
  refine ⟨?_, ?_, ?_⟩
  · rw [hdel]
    exact dictLookup_erase_self _ _
  · rw [hdel]
    exact dictLookup_erase_self _ _
  · rw [hdel]
    simp only [on_created, hfi]
    simp only [add_to_queue, hpath]
    rw [if_neg (by rw [dictLookup_erase_self]; simp)]
    rw [if_neg (by
      simp only [List.length_append, List.length_cons, List.length_nil]
      exact hroom)]

/-- C7.  Change-detection enqueue: for a tracked eligible file, a modify
event whose recomputed fingerprint differs from the stored one (or whose
path is new) updates the FileIndex entry to the new fingerprint and hands
the record to `add_to_queue` exactly once; a modify event whose fingerprint
equals the stored one performs no enqueue and leaves the whole state
unchanged. -/
theorem C7_change_detection (resp : Oracle) (B : Nat) (st : WatcherState)
    (p : String) (eligible : Bool) (language : String) (raw : Option (List Nat))
    (fi : FileInfo)
    (hfi : get_file_info p eligible language raw = some fi) :
    (dictLookup st.file_hashes fi.path ≠ some fi.hash →
      on_modified resp B st p eligible language raw =
        ({ file_hashes := dictInsert st.file_hashes fi.path fi.hash
           cm := (add_to_queue resp B st.cm fi).1 },
         (add_to_queue resp B st.cm fi).2) ∧
      dictLookup
        ((on_modified resp B st p eligible language raw).1).file_hashes
        fi.path = some fi.hash) ∧
    (dictLookup st.file_hashes fi.path = some fi.hash →
      on_modified resp B st p eligible language raw = (st, [])) := by
  constructor
  · intro hne
    have hstep : on_modified resp B st p eligible language raw =
        ({ file_hashes := dictInsert st.file_hashes fi.path fi.hash
           cm := (add_to_queue resp B st.cm fi).1 },
         (add_to_queue resp B st.cm fi).2) := by
      simp only [on_modified, hfi]
      rw [if_pos hne]
    refine ⟨hstep, ?_⟩
    rw [hstep]
    exact dictLookup_insert_self _ _ _
  · intro heq
    simp only [on_modified, hfi]
    rw [if_neg (fun hcon => hcon heq)]

/-- The byte `0x78` = `"x"`, a one-byte file. -/
def rawX : List Nat := [120]

/-- The record `_get_file_info` builds for `a.py` containing `"x"`. -/
def fiX : FileInfo :=
  { path := "a.py", content := "x", hash := xxh64 (utf8Encode "x")
    language := "python" }

/-- A watcher that tracks `a.py` as cached with the fingerprint of `"x"`. -/
def stWdel : WatcherState :=
  { file_hashes := [("a.py", xxh64 (utf8Encode "x"))]
    cm := { cache_queue := [], cached_files := [("a.py", xxh64 (utf8Encode "x"))]
            model_id := some "m", max_model_len := 8192 } }

/-- Witness for C6: delete `a.py`, then re-create it with byte-identical
content; both trackings are gone and the record is enqueued again. -/
theorem C6_deletion_clears_witness :
    get_file_info "a.py" true "python" (some rawX) = some fiX ∧
    dictLookup (on_deleted stWdel "a.py").file_hashes "a.py" = none ∧
    dictLookup ((on_deleted stWdel "a.py").cm).cached_files "a.py" = none ∧
    on_created okOracle CACHE_BATCH_SIZE (on_deleted stWdel "a.py") "a.py" true
        "python" (some rawX) =
      ({ file_hashes :=
           dictInsert (on_deleted stWdel "a.py").file_hashes "a.py" fiX.hash
         cm := { (on_deleted stWdel "a.py").cm with
                   cache_queue :=
                     (on_deleted stWdel "a.py").cm.cache_queue ++ [fiX] } },
       []) := by
  have h := C6_deletion_clears okOracle CACHE_BATCH_SIZE stWdel "a.py" true
    "python" (some rawX) fiX (by decide) (by decide) (by decide) (by decide)
  exact ⟨by decide, h.1, h.2.1, h.2.2⟩

/-- The bytes of `"ab"`. -/
def rawAB : List Nat := [97, 98]

/-- The bytes of `"ac"`: a one-byte change from `rawAB`. -/
def rawAC : List Nat := [97, 99]

/-- The record for `f.py` containing `"ab"`. -/
def fiAB : FileInfo :=
  { path := "f.py", content := "ab", hash := xxh64 (utf8Encode "ab")
    language := "python" }

/-- The record for `f.py` containing `"ac"`. -/
def fiAC : FileInfo :=
  { path := "f.py", content := "ac", hash := xxh64 (utf8Encode "ac")
    language := "python" }

/-- A watcher tracking `f.py` with the fingerprint of `"ab"`. -/
def stW7 : WatcherState :=
  { file_hashes := [("f.py", xxh64 (utf8Encode "ab"))], cm := stW }

/-- Witness for C7: a one-byte content change (`"ab"` → `"ac"`) has a
different fingerprint and triggers exactly one re-enqueue, while re-reading
the unchanged content enqueues nothing and changes nothing. -/
theorem C7_change_detection_witness :
    rawAB ≠ rawAC ∧
    get_file_info "f.py" true "python" (some rawAC) = some fiAC ∧
    dictLookup stW7.file_hashes fiAC.path ≠ some fiAC.hash ∧
    on_modified okOracle CACHE_BATCH_SIZE stW7 "f.py" true "python" (some rawAC) =
      ({ file_hashes := dictInsert stW7.file_hashes fiAC.path fiAC.hash
         cm := (add_to_queue okOracle CACHE_BATCH_SIZE stW7.cm fiAC).1 },
       (add_to_queue okOracle CACHE_BATCH_SIZE stW7.cm fiAC).2) ∧
    on_modified okOracle CACHE_BATCH_SIZE stW7 "f.py" true "python" (some rawAB) =
      (stW7, []) := by
  have hA := C7_change_detection okOracle CACHE_BATCH_SIZE stW7 "f.py" true
    "python" (some rawAC) fiAC (by decide)
  have hB := C7_change_detection okOracle CACHE_BATCH_SIZE stW7 "f.py" true
    "python" (some rawAB) fiAB (by decide)
  exact ⟨by decide, by decide, by decide, (hA.1 (by decide)).1, hB.2 (by decide)⟩

/-- A watcher that tracks `old.py` in both the FileIndex and the
cached-fingerprint map. -/
def stC8 : WatcherState :=
  { file_hashes := [("old.py", 7)]
    cm := { cache_queue := [], cached_files := [("old.py", 7)]
            model_id := some "m", max_model_len := 8192 } }

/-- C8 counterexample: a move of `old.py` to `new.py` delivered to the
enhanced watcher removes nothing — the old path stays in the FileIndex and
in the cached-fingerprint map, the new path is not admitted, nothing is
enqueued and nothing is sent — contradicting the claim that a rename
removes the old path's entries and re-admits the new path as a create. -/
theorem C8_counterexample :
    on_moved stC8 "old.py" "new.py" = (stC8, []) ∧
    dictLookup ((on_moved stC8 "old.py" "new.py").1).file_hashes "old.py"
      = some 7 ∧
    dictLookup ((on_moved stC8 "old.py" "new.py").1).cm.cached_files "old.py"
      = some 7 ∧
    dictLookup ((on_moved stC8 "old.py" "new.py").1).file_hashes "new.py"
      = none ∧
    ((on_moved stC8 "old.py" "new.py").1).cm.cache_queue = [] :=
  ⟨rfl, rfl, rfl, rfl, rfl⟩

/-- C8 (amended).  The enhanced watcher does not override `on_moved`, so a
rename/move event is a no-op there: no entry is removed, nothing is
re-admitted, nothing is enqueued.  Only the legacy watcher
(`scripts/watch_codebase.py`) handles moves: it drops the old path from its
file-hash index, records the destination under its new hash, and sends one
move notification — and it has no cached-fingerprint map to purge. -/
theorem C8_amended (st : WatcherState) (lst : LegacyState) (src dst : String)
    (h : Nat) (hne : src ≠ dst) :
    on_moved st src dst = (st, []) ∧
    dictLookup ((legacy_on_moved lst src dst (some h)).1).file_hashes src
      = none ∧
    dictLookup ((legacy_on_moved lst src dst (some h)).1).file_hashes dst
      = some h ∧
    (legacy_on_moved lst src dst (some h)).2 = [([src, dst], "move")] := by
  refine ⟨rfl, ?_, ?_, rfl⟩
  · simp only [legacy_on_moved]
    rw [dictLookup_insert_other _ _ _ _ hne]
    by_cases hs : (dictLookup lst.file_hashes src).isSome = true
    · rw [if_pos hs]
      exact dictLookup_erase_self _ _
    · rw [if_neg hs]
      exact Option.not_isSome_iff_eq_none.mp hs
  · simp only [legacy_on_moved]
    exact dictLookup_insert_self _ _ _

/-- The legacy watcher tracking `old.py`. -/
def lstC8 : LegacyState := { file_hashes := [("old.py", 7)] }

/-- Witness for the amended C8 at a concrete move event. -/
theorem C8_amended_witness :
    "old.py" ≠ "new.py" ∧
    on_moved stC8 "old.py" "new.py" = (stC8, []) ∧
    dictLookup ((legacy_on_moved lstC8 "old.py" "new.py" (some 9)).1).file_hashes
      "old.py" = none ∧
    dictLookup ((legacy_on_moved lstC8 "old.py" "new.py" (some 9)).1).file_hashes
      "new.py" = some 9 ∧
    (legacy_on_moved lstC8 "old.py" "new.py" (some 9)).2 =
      [(["old.py", "new.py"], "move")] := by
  have h := C8_amended stC8 lstC8 "old.py" "new.py" 9 (by decide)
  exact ⟨by decide, h.1, h.2.1, h.2.2.1, h.2.2.2⟩

/-- A successful read below the size cap yields the record built from the
lossy decode of the raw bytes. -/
theorem get_file_info_some (p lang : String) (b : List Nat)
    (hsz : b.length ≤ CACHE_MAX_FILE_SIZE) :
    get_file_info p true lang (some b) =
      some { path := p, content := ⟨utf8DecodeIgnore b⟩
             hash := xxh64 (utf8Encode ⟨utf8DecodeIgnore b⟩), language := lang } := by
  simp [get_file_info, Nat.not_lt.mpr hsz]

/-- C10.  The fingerprint is computed over the content after the lossy
UTF-8 decode (`errors='ignore'`), not over the raw bytes: any two byte
sequences with the same lossy decode — in particular sequences differing
only in undecodable bytes — yield records with identical fingerprints, and
a modification whose bytes decode to the tracked content is treated as no
change: nothing is enqueued and the state is untouched. -/
theorem C10_lossy_fingerprint (resp : Oracle) (B : Nat) (st : WatcherState)
    (p language : String) (b1 b2 : List Nat) (fi1 : FileInfo)
    (hdec : utf8DecodeIgnore b1 = utf8DecodeIgnore b2)
    (hsz2 : b2.length ≤ CACHE_MAX_FILE_SIZE)
    (hfi1 : get_file_info p true language (some b1) = some fi1)
    (htrk : dictLookup st.file_hashes p = some fi1.hash) :
    Option.map FileInfo.hash (get_file_info p true language (some b2)) =
      Option.map FileInfo.hash (get_file_info p true language (some b1)) ∧
    on_modified resp B st p true language (some b2) = (st, []) := by
  have hsz1 : b1.length ≤ CACHE_MAX_FILE_SIZE := by
    by_contra hbig
    rw [get_file_info] at hfi1
    simp [Nat.lt_of_not_le hbig] at hfi1
  have h1 := get_file_info_some p language b1 hsz1
  have h2 := get_file_info_some p language b2 hsz2
  rw [h1] at hfi1
  injection hfi1 with hfi1eq
  have hhash : fi1.hash = xxh64 (utf8Encode ⟨utf8DecodeIgnore b2⟩) := by
    rw [← hfi1eq, ← hdec]
  constructor
  · rw [h1, h2]
    simp [hdec]
  · simp only [on_modified, h2]
    rw [if_neg (fun hcon => hcon (by rw [htrk, hhash]))]

/-- Bytes `61 FF 62`: `"a"`, an undecodable byte, `"b"`. -/
def rawInv1 : List Nat := [97, 255, 98]

/-- Bytes `61 FE 62`: the same file with only the undecodable byte
changed. -/
def rawInv2 : List Nat := [97, 254, 98]

/-- The record for `g.py` whose lossy-decoded content is `"ab"`. -/
def fiG : FileInfo :=
  { path := "g.py", content := "ab", hash := xxh64 (utf8Encode "ab")
    language := "python" }

/-- A watcher tracking `g.py` with the fingerprint of the lossy decode. -/
def stW10 : WatcherState :=
  { file_hashes := [("g.py", xxh64 (utf8Encode "ab"))], cm := stW }

/-- Witness for C10: two byte sequences differing only in an invalid byte
decode identically, get the same fingerprint, and the modify event is
treated as no change. -/
theorem C10_lossy_fingerprint_witness :
    rawInv1 ≠ rawInv2 ∧
    utf8DecodeIgnore rawInv1 = utf8DecodeIgnore rawInv2 ∧
    Option.map FileInfo.hash (get_file_info "g.py" true "python" (some rawInv2)) =
      Option.map FileInfo.hash (get_file_info "g.py" true "python" (some rawInv1)) ∧
    on_modified okOracle CACHE_BATCH_SIZE stW10 "g.py" true "python"
      (some rawInv2) = (stW10, []) := by
  have h := C10_lossy_fingerprint okOracle CACHE_BATCH_SIZE stW10 "g.py"
    "python" rawInv1 rawInv2 fiG (by decide) (by decide) (by decide) (by decide)
  exact ⟨by decide, by decide, h.1, h.2⟩

end Infbox
